import Mathlib

/-!
Verification of the Models-From-Scratch notebook (`linreg.ipynb`): a
`LinearRegression` class (ordinary least squares and ridge regression via the
normal equations) and a `KNN` class (brute-force k-nearest-neighbor
classification).

Embedding conventions:
* Numbers are embedded as `ℚ` (the notebook uses IEEE doubles; all claims
  under verification are about exact algebraic behavior, so exact rationals
  are the faithful shallow embedding).
* Matrices are `List (List ℚ)`, vectors `List ℚ`, mirroring the notebook's
  numpy arrays.  `np.dot`, `np.transpose`, `np.identity`, elementwise `+` and
  scalar `*` are translated below.
* Python exceptions are embedded as `Except Err _`; `Err` records the *kind*
  of error and its numeric payload (the message text is not modeled).
* `math.sqrt` in `KNN.distance` is strictly monotone and injective on
  nonnegative reals, so sorting / comparing by the square root of the sum of
  squared differences orders identically to sorting by the sum itself.  We
  embed the squared Euclidean distance to stay inside `ℚ`; no claim depends
  on the actual magnitude of a distance, only on the induced order and ties,
  which are preserved exactly.
-/

namespace ModelsFromScratch

/-- Error kinds raised by the notebook code (Python `ValueError`,
`IndexError`, `numpy.linalg.LinAlgError`, `TypeError` on an unfitted model,
`ValueError` from `max` on an empty sequence, reshape failure and
`ZeroDivisionError`), with their numeric payloads. -/
inductive Err where
  | dimMismatch (a b : ℕ)
  | invalidMethod (m : String)
  | singular
  | notFitted
  | indexOOB (i n : ℕ)
  | emptyMax
  | reshapeErr (size target : ℕ)
  | shapeErr
  | zeroDiv
  deriving DecidableEq

instance {α : Type _} [DecidableEq α] : DecidableEq (Except Err α) := fun x y =>
  match x, y with
  | .ok a, .ok b =>
    if h : a = b then .isTrue (by rw [h]) else .isFalse (by simp [h])
  | .ok _, .error _ => .isFalse (by simp)
  | .error _, .ok _ => .isFalse (by simp)
  | .error e, .error e' =>
    if h : e = e' then .isTrue (by rw [h]) else .isFalse (by simp [h])

/-- Embeds `np.dot` on two vectors, and the inner loop of `LinearRegression.predict`:
`zip` truncates to the shorter argument, so no length check happens here. -/
def dot (a b : List ℚ) : ℚ := (List.zipWith (· * ·) a b).sum

/-- Number of columns of a matrix: length of its first row (numpy `shape[1]`
for the rectangular inputs the notebook feeds in). -/
def numColsM (M : List (List ℚ)) : ℕ := (M.headD []).length

/-- Embeds `np.transpose` for a rectangular matrix. -/
def transposeM (M : List (List ℚ)) : List (List ℚ) :=
  (List.range (numColsM M)).map (fun j => M.map (fun r => r.getD j 0))

/-- Embeds `np.dot` matrix · vector. -/
def matVec (M : List (List ℚ)) (v : List ℚ) : List ℚ := M.map (fun r => dot r v)

/-- Embeds `np.dot` matrix · matrix. -/
def matMul (A B : List (List ℚ)) : List (List ℚ) :=
  A.map (fun r => (transposeM B).map (fun c => dot r c))

/-- Embeds `np.identity p`. -/
def identityM (p : ℕ) : List (List ℚ) :=
  (List.range p).map (fun i => (List.range p).map (fun j => if i = j then (1 : ℚ) else 0))

/-- Scalar multiple of a matrix (`h * np.identity(p)` etc.). -/
def smulM (c : ℚ) (M : List (List ℚ)) : List (List ℚ) := M.map (fun r => r.map (fun e => c * e))

/-- Elementwise matrix sum (numpy `+` on equal-shaped arrays). -/
def addM (A B : List (List ℚ)) : List (List ℚ) :=
  List.zipWith (fun r s => List.zipWith (· + ·) r s) A B

/-- The matrix `c · I(p)` written out entrywise; `smulM c (identityM p)`
normalizes to this form. -/
def deltaM (c : ℚ) (p : ℕ) : List (List ℚ) :=
  (List.range p).map (fun i => (List.range p).map (fun j => if i = j then c else 0))

/-- Row swap used by the Gauss-Jordan elimination below. -/
def swapRows (rows : List (List ℚ)) (i j : ℕ) : List (List ℚ) :=
  (List.range rows.length).map (fun r =>
    if r = i then rows.getD j [] else if r = j then rows.getD i [] else rows.getD r [])

/-- First admissible pivot row (index `≥ col` with a nonzero entry in column
`col`). -/
def gjPivot (rows : List (List ℚ)) (col : ℕ) : Option ℕ :=
  (List.range rows.length).find? (fun r =>
    decide (col ≤ r) && decide ((rows.getD r []).getD col 0 ≠ 0))

/-- One Gauss-Jordan column step: pivot, normalize the pivot row, eliminate
the column from every other row.  Fails (like `np.linalg.inv`) exactly when
no pivot is available, i.e. the matrix is singular. -/
def gjStep (rows : List (List ℚ)) (col : ℕ) : Except Err (List (List ℚ)) :=
  match gjPivot rows col with
  | none => .error .singular
  | some rp =>
    let rows₁ := swapRows rows col rp
    let pivRow := rows₁.getD col []
    let piv := pivRow.getD col 0
    let normRow := pivRow.map (· / piv)
    let rows₂ := (List.range rows₁.length).map (fun r => if r = col then normRow else rows₁.getD r [])
    .ok (rows₂.enum.map (fun ir =>
      if ir.1 = col then ir.2
      else List.zipWith (fun a b => a - ir.2.getD col 0 * b) ir.2 normRow))

/-- Embeds `np.linalg.inv`.  numpy uses an LU factorization; over exact arithmetic
every correct elimination computes the unique inverse of an invertible matrix
and fails exactly on a singular one, so Gauss-Jordan on the augmented matrix
`[M | I]` is a faithful embedding.  The theorems below treat `matInv` as a
black box (it is only ever evaluated on concrete inputs or compared for
syntactically equal arguments). -/
def matInv (M : List (List ℚ)) : Except Err (List (List ℚ)) :=
  let n := M.length
  let aug := M.enum.map (fun ir => ir.2 ++ (identityM n).getD ir.1 [])
  ((List.range n).foldlM gjStep aug).map (fun rows => rows.map (fun r => r.drop n))

/-- The `LinearRegression` object after `__init__` has completed: training
data, `n = len(X)`, `p = len(X[0])`, and the mutable `coefficients` field
(`None` until `fit` runs, embedded as `Option`). -/
structure LinearRegression where
  X : List (List ℚ)
  y : List ℚ
  n : ℕ
  p : ℕ
  coefficients : Option (List ℚ)
  deriving DecidableEq

namespace LinearRegression

/-- The residual vector `y − X·b` (numpy elementwise subtraction of
equal-length vectors). -/
def residuals (m : LinearRegression) (b : List ℚ) : List ℚ :=
  List.zipWith (· - ·) m.y (matVec m.X b)

/-- Embeds `RSS(b) = np.linalg.norm(y − X·b)**2`, the sum of squared residuals. -/
def RSS (m : LinearRegression) (b : List ℚ) : ℚ :=
  ((residuals m b).map (fun t => t ^ 2)).sum

/-- Embeds `TSS() = np.sum((y − np.mean(y))**2)`. -/
def TSS (m : LinearRegression) : ℚ :=
  (m.y.map (fun v => (v - m.y.sum / m.y.length) ^ 2)).sum

/-- Embeds `MSE() = RSS(coefficients) / n`.  On an unfitted model the Python code
raises a `TypeError` from `np.dot(X, None)`; embedded as `notFitted`. -/
def MSE (m : LinearRegression) : Except Err ℚ :=
  match m.coefficients with
  | none => .error .notFitted
  | some b => .ok (RSS m b / m.n)

/-- Embeds `r_squared() = 1 − RSS(coefficients)/TSS()`.  The claims under
verification only concern `TSS ≠ 0`; numpy float division by a zero `TSS`
yields `inf`/`nan`, which has no `ℚ` counterpart, so the quotient is embedded
with Lean's total division (the theorems always assume `TSS ≠ 0`). -/
def r_squared (m : LinearRegression) : Except Err ℚ :=
  match m.coefficients with
  | none => .error .notFitted
  | some b => .ok (1 - RSS m b / TSS m)

/-- Embeds `fit(method, h)`: the OLS branch solves `(XᵗX)⁻¹ Xᵗy`; the ridge
branch builds `I = h·identity(p)`, `shrinkage = Iᵗ·I`, and solves
`(XᵗX + shrinkage)⁻¹ Xᵗy`; any other method raises `ValueError` before any
assignment.  A successful call overwrites `coefficients`. -/
def fit (m : LinearRegression) (method : String) (h : ℚ) : Except Err LinearRegression :=
  if method = "OLS" then
    (matInv (matMul (transposeM m.X) m.X)).map (fun A =>
      { m with coefficients := some (matVec A (matVec (transposeM m.X) m.y)) })
  else if method = "ridge" then
    (matInv (addM (matMul (transposeM m.X) m.X)
        (matMul (transposeM (smulM h (identityM m.p))) (smulM h (identityM m.p))))).map
      (fun A => { m with coefficients := some (matVec A (matVec (transposeM m.X) m.y)) })
  else .error (.invalidMethod method)

/-- The object state after a `fit` call whose exception (if any) was caught
by the caller: on error the Python object is left exactly as it was. -/
def fitOrUnchanged (m : LinearRegression) (method : String) (h : ℚ) : LinearRegression :=
  match fit m method h with
  | .ok m' => m'
  | .error _ => m

/-- Embeds `predict(x)`: `y = 0; for term in zip(coefficients, x): y += term[0]*term[1]`.
`zip` silently truncates to the shorter of the two vectors — there is no
dimension check.  With `coefficients = None`, `zip(None, x)` raises a
`TypeError`; embedded as `notFitted`. -/
def predict (m : LinearRegression) (x : List ℚ) : Except Err ℚ :=
  match m.coefficients with
  | none => .error .notFitted
  | some b => .ok (dot b x)

/-- Modelled from the spec: ridge coefficients `(XᵗX + c·I)⁻¹ Xᵗy`, i.e. the
normal-equation solve after adding `c` to every diagonal entry of the `p×p`
normal-equation matrix.  Used to compare the spec's formula (shift `c = h`)
with what the code computes. -/
def ridgeSpecCoefficients (m : LinearRegression) (c : ℚ) : Except Err (List ℚ) :=
  (matInv (addM (matMul (transposeM m.X) m.X) (smulM c (identityM m.p)))).map
    (fun A => matVec A (matVec (transposeM m.X) m.y))

end LinearRegression

/-- The attribute-by-attribute state of a `LinearRegression.__init__` call,
used to express which fields were assigned before an exception escaped.
`coefficients? = some none` means the attribute was assigned the value
`None`. -/
structure LinRegInitState where
  X? : Option (List (List ℚ)) := none
  y? : Option (List ℚ) := none
  n? : Option ℕ := none
  p? : Option ℕ := none
  coefficients? : Option (Option (List ℚ)) := none
  deriving DecidableEq

/-- Embeds `LinearRegression.__init__(X, y)` as a step-by-step state builder: the
length check runs *before* any attribute assignment; `p = len(X[0])` raises
`IndexError` on an empty `X` after `X`, `y`, `n` were already assigned. -/
def LinearRegression.initState (X : List (List ℚ)) (y : List ℚ) :
    LinRegInitState × Option Err :=
  if X.length ≠ y.length then ({}, some (.dimMismatch X.length y.length))
  else if X.isEmpty then
    ({ X? := some X, y? := some y, n? := some X.length }, some (.indexOOB 0 0))
  else
    ({ X? := some X, y? := some y, n? := some X.length,
       p? := some (X.headD []).length, coefficients? := some none }, none)

/-- The `KNN` object after `__init__`: training data, `n = len(X)`,
`p = X.shape[1]`, and the neighbor count `k` (stored without validation). -/
structure KNN (α : Type _) where
  X : List (List ℚ)
  y : List α
  n : ℕ
  p : ℕ
  k : ℕ
  deriving DecidableEq

/-- The attribute-by-attribute state of a `KNN.__init__` call. -/
structure KNNInitState (α : Type _) where
  X? : Option (List (List ℚ)) := none
  y? : Option (List α) := none
  n? : Option ℕ := none
  p? : Option ℕ := none
  k? : Option ℕ := none
  deriving DecidableEq

/-- Embeds `KNN.__init__(X, y, k)` as a step-by-step state builder.  No validation
of `k` is performed.  `self.X` is assigned first and cannot fail;
`self.y = np.asarray(y).reshape(len(X),)` raises a `ValueError` (reporting
the size `len(y)` and target shape `(len(X),)`) when the lengths differ —
*after* `self.X` was assigned; `self.p = X.shape[1]` fails on an empty `X`
after `X`, `y`, `n` were assigned. -/
def KNN.initState {α : Type _} (X : List (List ℚ)) (y : List α) (k : ℕ) :
    KNNInitState α × Option Err :=
  if y.length ≠ X.length then ({ X? := some X }, some (.reshapeErr y.length X.length))
  else if X.isEmpty then
    ({ X? := some X, y? := some y, n? := some X.length }, some .shapeErr)
  else
    ({ X? := some X, y? := some y, n? := some X.length,
       p? := some (X.headD []).length, k? := some k }, none)

namespace KNN

variable {α : Type _} [DecidableEq α]

/-- Sum of squared coordinate differences — the quantity accumulated by the
loop in `KNN.distance` before `math.sqrt` is applied (see the header note on
the monotone-sqrt convention). -/
def sqd (a b : List ℚ) : ℚ := (List.zipWith (fun u v => (u - v) ^ 2) a b).sum

/-- Embeds `KNN.distance(p1, p2)`: validates equal lengths, then returns the
(squared, see above) Euclidean distance. -/
def distance (p1 p2 : List ℚ) : Except Err ℚ :=
  if p1.length ≠ p2.length then .error (.dimMismatch p1.length p2.length)
  else .ok (sqd p1 p2)

/-- A Python `for`-loop body that may raise, applied to each element in
order: the first exception aborts the whole loop. -/
def mapExcept {β γ : Type _} (f : β → Except Err γ) : List β → Except Err (List γ)
  | [] => .ok []
  | b :: l => (f b).bind (fun c => (mapExcept f l).map (fun cs => c :: cs))

/-- Embeds `self.y[i]`: list indexing, `IndexError` when out of range. -/
def getLabel (y : List α) (i : ℕ) : Except Err α :=
  match y.get? i with
  | some lbl => .ok lbl
  | none => .error (.indexOOB i y.length)

/-- The running-maximum loop of Python's `max(..., key=f)`: the current best
is replaced only when a strictly greater key appears, so the *first* item
attaining the maximal key wins. -/
def maxFrom (f : α → ℕ) (best : α) : List α → α
  | [] => best
  | c :: l => maxFrom f (if f best < f c then c else best) l

/-- Embeds `KNN._most_common(lst) = max(set(lst), key=lst.count)`; `max` raises
`ValueError` on an empty sequence.  CPython iterates a `set` in an
unspecified order; we fix `lst.dedup` as the iteration order.  Every claim
about the returned label assumes a unique maximal count, for which the
result is independent of the chosen order. -/
def mostCommon (lst : List α) : Except Err α :=
  match lst.dedup with
  | [] => .error .emptyMax
  | c :: rest => .ok (maxFrom (fun a => lst.count a) c rest)

/-- The comparison key of `sorted(distances, key=lambda x: x[0])`: compare
pairs by distance only. -/
def distLe (a b : ℚ × ℕ) : Prop := a.1 ≤ b.1

instance : DecidableRel distLe := fun a b => inferInstanceAs (Decidable (a.1 ≤ b.1))

/-- Lexicographic order on (distance, original index): the order that a
*stable* sort by distance realizes on pairs with strictly increasing
indices. -/
def lexLe (a b : ℚ × ℕ) : Prop := a.1 < b.1 ∨ (a.1 = b.1 ∧ a.2 ≤ b.2)

instance : DecidableRel lexLe := fun a b =>
  inferInstanceAs (Decidable (a.1 < b.1 ∨ (a.1 = b.1 ∧ a.2 ≤ b.2)))

/-- The `(distance, index)` pair list built by the loop in `classify`
(`for index, observation in enumerate(self.X)`), with error propagation
from `distance`. -/
def pairsOf (M : KNN α) (x : List ℚ) : Except Err (List (ℚ × ℕ)) :=
  mapExcept (fun ir => (distance x ir.2).map (fun d => (d, ir.1))) M.X.enum

/-- Embeds `KNN.classify(x)`: length check, distance pairs, stable sort by
distance, the slice `[1 : k+1]` (which *discards the closest match*), label
lookup, majority vote.  Python's `sorted` is a stable sort, and a stable
sort is extensionally unique, so `List.insertionSort` by `distLe` (which is
stable) is a faithful embedding.  The slice `[1 : k+1]` for the natural
number `k` is `drop 1` then `take k`. -/
def classify (M : KNN α) (x : List ℚ) : Except Err α :=
  if x.length ≠ M.p then .error (.dimMismatch x.length M.p)
  else
    (pairsOf M x).bind (fun pairs =>
      (mapExcept (fun i => getLabel M.y i)
          ((((List.insertionSort distLe pairs).drop 1).take M.k).map (fun pr => pr.2))).bind
        (fun classes => mostCommon classes))

/-- Embeds `KNN.test_error(X, y)`: no length validation; iterates over the rows of
`X` (`for index, observation in enumerate(X)`), classifies each, compares it
with `y[index]` (which can raise `IndexError`), and finally divides the
mismatch count by `len(X)` (a `ZeroDivisionError` when `X` is empty). -/
def test_error (M : KNN α) (Xt : List (List ℚ)) (yt : List α) : Except Err ℚ :=
  (mapExcept (fun ir =>
      (classify M ir.2).bind (fun c =>
        (getLabel yt ir.1).bind (fun lbl =>
          .ok (if c = lbl then (0 : ℕ) else 1)))) Xt.enum).bind
    (fun flags =>
      if Xt.length = 0 then .error .zeroDiv
      else .ok ((flags.sum : ℚ) / (Xt.length : ℚ)))

/-- Specification-side description of the pair list: `(distance, index)` for
each training row, no error monad (meaningful under the rectangularity
hypotheses of the claims). -/
def purePairs (M : KNN α) (x : List ℚ) : List (ℚ × ℕ) :=
  M.X.enum.map (fun ir => (sqd x ir.2, ir.1))

/-- Specification-side description of the sorted pair list: ascending by
distance with ties broken by original index order, i.e. sorted by the
lexicographic order `lexLe`. -/
def specSortedPairs (M : KNN α) (x : List ℚ) : List (ℚ × ℕ) :=
  List.insertionSort lexLe (purePairs M x)

/-- Specification-side labels of the pairs at sorted positions `[1, k+1)`:
the window that discards the single closest match. -/
def specSelectedLabels [Inhabited α] (M : KNN α) (x : List ℚ) : List α :=
  (((specSortedPairs M x).drop 1).take M.k).map (fun pr => M.y.getD pr.2 default)

/-- Specification-side labels of all training points except the single
closest one (the selection window once `k` exceeds the list length). -/
def specDroppedLabels [Inhabited α] (M : KNN α) (x : List ℚ) : List α :=
  ((specSortedPairs M x).drop 1).map (fun pr => M.y.getD pr.2 default)

/-- Says that `m` is the strict mode of `lst`: it occurs, and strictly more often than
every other element. -/
def UniqueMode (lst : List α) (m : α) : Prop :=
  m ∈ lst ∧ ∀ c ∈ lst, c ≠ m → lst.count c < lst.count m

instance (lst : List α) (m : α) : Decidable (UniqueMode lst m) :=
  inferInstanceAs (Decidable (_ ∧ ∀ c ∈ lst, _ → _))

/-- Specification-side misclassification count of `test_error`: the number
of feature rows whose classification differs from the label at the same
index. -/
def misCount (M : KNN α) (Xt : List (List ℚ)) (yt : List α) : ℕ :=
  Xt.enum.countP (fun ir => decide (classify M ir.2 ≠ getLabel yt ir.1))

end KNN

/-! ### General helper lemmas -/

theorem ok_bind {β γ : Type _} (a : β) (f : β → Except Err γ) :
    (Except.ok a : Except Err β).bind f = f a := rfl

theorem error_bind {β γ : Type _} (e : Err) (f : β → Except Err γ) :
    (Except.error e : Except Err β).bind f = .error e := rfl

theorem ok_map {β γ : Type _} (a : β) (f : β → γ) :
    (Except.ok a : Except Err β).map f = .ok (f a) := rfl

theorem error_map {β γ : Type _} (e : Err) (f : β → γ) :
    (Except.error e : Except Err β).map f = .error e := rfl

/-- Running `mapExcept` over a list on which the body never raises is a plain map. -/
theorem mapExcept_eq_map {β γ : Type _} (f : β → Except Err γ) (g : β → γ) :
    ∀ l : List β, (∀ b ∈ l, f b = .ok (g b)) → KNN.mapExcept f l = .ok (l.map g) := by
  intro l
  induction l with
  | nil => intro _; rfl
  | cons b t ih =>
    intro h
    have hb := h b (List.mem_cons_self b t)
    have ht := ih (fun c hc => h c (List.mem_cons_of_mem _ hc))
    rw [KNN.mapExcept, hb, ok_bind, ht, ok_map, List.map_cons]

/-- Python's `max(..., key=f)` running maximum returns the strict maximizer
when there is one, regardless of iteration order. -/
theorem maxFrom_eq_of_unique {α : Type _} (f : α → ℕ) (m : α) :
    ∀ (l : List α) (best : α), (best = m ∨ m ∈ l) → (best ≠ m → f best < f m) →
      (∀ c ∈ l, c ≠ m → f c < f m) → KNN.maxFrom f best l = m := by
  intro l
  induction l with
  | nil =>
    intro best hbm hb _
    rcases hbm with h | h
    · simpa [KNN.maxFrom] using h
    · cases h
  | cons c t ih =>
    intro best hbm hb hl
    have hc := hl c (List.mem_cons_self c t)
    have hl' : ∀ d ∈ t, d ≠ m → f d < f m := fun d hd => hl d (List.mem_cons_of_mem _ hd)
    by_cases hcm : c = m
    · subst hcm
      by_cases hlt : f best < f c
      · rw [KNN.maxFrom, if_pos hlt]
        exact ih c (Or.inl rfl) (fun hne => absurd rfl hne) hl'
      · rw [KNN.maxFrom, if_neg hlt]
        by_cases hbm' : best = c
        · exact ih best (Or.inl hbm') hb hl'
        · exact absurd (hb hbm') hlt
    · by_cases hlt : f best < f c
      · rw [KNN.maxFrom, if_pos hlt]
        have hm_t : m ∈ t := by
          rcases hbm with h | h
          · exact absurd hlt (by rw [h]; exact not_lt.2 (le_of_lt (hc hcm)))
          · rcases List.mem_cons.1 h with h' | h'
            · exact absurd h'.symm hcm
            · exact h'
        exact ih c (Or.inr hm_t) (fun _ => hc hcm) hl'
      · rw [KNN.maxFrom, if_neg hlt]
        have hbm' : best = m ∨ m ∈ t := by
          rcases hbm with h | h
          · exact Or.inl h
          · rcases List.mem_cons.1 h with h' | h'
            · exact absurd h'.symm hcm
            · exact Or.inr h'
        exact ih best hbm' hb hl'

/-- The vote `_most_common` returns the strict mode when there is one. -/
theorem mostCommon_of_uniqueMode {α : Type _} [DecidableEq α] {lst : List α} {m : α}
    (h : KNN.UniqueMode lst m) : KNN.mostCommon lst = .ok m := by
  obtain ⟨hmem, hcnt⟩ := h
  have hd : m ∈ lst.dedup := List.mem_dedup.2 hmem
  rcases hl : lst.dedup with _ | ⟨c, rest⟩
  · rw [hl] at hd; cases hd
  · rw [hl] at hd
    have hkey : ∀ d ∈ lst.dedup, d ≠ m → lst.count d < lst.count m := fun d hdm =>
      hcnt d (List.mem_dedup.1 hdm)
    rw [hl] at hkey
    rw [KNN.mostCommon, hl]
    refine congrArg Except.ok ?_
    refine maxFrom_eq_of_unique _ m rest c ?_ ?_ ?_
    · rcases List.mem_cons.1 hd with h' | h'
      · exact Or.inl h'.symm
      · exact Or.inr h'
    · exact hkey c (List.mem_cons_self c rest)
    · exact fun d hd' => hkey d (List.mem_cons_of_mem _ hd')

/-- The vote `_most_common` succeeds on any nonempty list. -/
theorem mostCommon_isOk {α : Type _} [DecidableEq α] {lst : List α} (h : lst ≠ []) :
    ∃ c, KNN.mostCommon lst = .ok c := by
  rcases hl : lst.dedup with _ | ⟨c, rest⟩
  · exact absurd ((List.dedup_eq_nil lst).1 hl) h
  · exact ⟨KNN.maxFrom (fun a => lst.count a) c rest, by rw [KNN.mostCommon, hl]⟩

/-- A sum of squares is nonnegative. -/
theorem sumSq_nonneg {β : Type _} (l : List β) (g : β → ℚ) :
    0 ≤ (l.map (fun v => g v ^ 2)).sum := by
  induction l with
  | nil => simp
  | cons a t ih => simpa using add_nonneg (sq_nonneg (g a)) ih

/-- A sum of squares vanishes exactly when every summand does. -/
theorem sumSq_eq_zero_iff {β : Type _} (l : List β) (g : β → ℚ) :
    (l.map (fun v => g v ^ 2)).sum = 0 ↔ ∀ v ∈ l, g v = 0 := by
  induction l with
  | nil => simp
  | cons a t ih =>
    simp only [List.map_cons, List.sum_cons, List.mem_cons]
    rw [add_eq_zero_iff_of_nonneg (sq_nonneg (g a)) (sumSq_nonneg t g),
      pow_eq_zero_iff (by decide : (2 : ℕ) ≠ 0), ih]
    constructor
    · rintro ⟨h1, h2⟩ v (rfl | hv)
      · exact h1
      · exact h2 v hv
    · intro H
      exact ⟨H a (Or.inl rfl), fun v hv => H v (Or.inr hv)⟩

/-- Summing the 0/1 penalty flags of a loop counts the failing elements. -/
theorem sum_flags_eq_countP {β : Type _} (q : β → Prop) [DecidablePred q] (l : List β) :
    (l.map (fun b => if q b then (0 : ℕ) else 1)).sum = l.countP (fun b => decide (¬ q b)) := by
  induction l with
  | nil => rfl
  | cons a t ih =>
    simp only [List.map_cons, List.sum_cons, List.countP_cons, ih]
    by_cases hq : q a
    · simp [hq]
    · simp [hq, Nat.add_comm]

/-- Summing the indicator of a single index over `range p`. -/
theorem sum_map_range_ite (c : ℚ) (i : ℕ) :
    ∀ p : ℕ, ((List.range p).map (fun k => if i = k then c else 0)).sum
      = if i < p then c else 0 := by
  intro p
  induction p with
  | zero => simp
  | succ p ih =>
    rw [List.range_succ, List.map_append, List.sum_append, ih]
    by_cases h : i < p
    · simp [h, Nat.ne_of_lt h, Nat.lt_succ_of_lt h]
    · by_cases h2 : i = p
      · simp [h, h2]
      · have h3 : ¬ i < p + 1 := by omega
        simp [h, h2, h3]

/-- Fuses `zipWith` of two maps over the same list. -/
theorem zipWith_map_same {β γ δ ε : Type _} (f : γ → δ → ε) (g : β → γ) (g' : β → δ) :
    ∀ l : List β, List.zipWith f (l.map g) (l.map g') = l.map (fun b => f (g b) (g' b)) := by
  intro l
  induction l with
  | nil => rfl
  | cons a t ih => simp [ih]

/-- Adding a zero vector of matching length is the identity. -/
theorem zipWith_add_replicate_zero :
    ∀ r : List ℚ, List.zipWith (· + ·) r (List.replicate r.length 0) = r := by
  intro r
  induction r with
  | nil => rfl
  | cons a t ih => simp [List.replicate_succ, ih]

/-! ### Matrix lemmas: the ridge shrinkage term -/

theorem smulM_identityM (h : ℚ) (p : ℕ) : smulM h (identityM p) = deltaM h p := by
  simp only [smulM, identityM, deltaM, List.map_map, Function.comp]
  refine List.map_congr_left (fun i _ => ?_)
  simp [mul_ite]

theorem numColsM_deltaM (c : ℚ) (p : ℕ) : numColsM (deltaM c p) = p := by
  cases p with
  | zero => rfl
  | succ p => simp [numColsM, deltaM, List.range_succ_eq_map]

theorem length_deltaM (c : ℚ) (p : ℕ) : (deltaM c p).length = p := by
  simp [deltaM]

theorem getD_deltaM_row (c : ℚ) (p i j : ℕ) (hj : j < p) :
    ((List.range p).map (fun j' => if i = j' then c else 0)).getD j 0
      = if i = j then c else 0 := by
  have hlen : j < ((List.range p).map (fun j' => if i = j' then c else 0)).length := by
    simpa using hj
  rw [List.getD_eq_getElem _ _ hlen, List.getElem_map, List.getElem_range]

theorem transposeM_deltaM (c : ℚ) (p : ℕ) : transposeM (deltaM c p) = deltaM c p := by
  rw [transposeM, numColsM_deltaM]
  simp only [deltaM, List.map_map, Function.comp]
  refine List.map_congr_left (fun j hj => ?_)
  refine List.map_congr_left (fun i hi => ?_)
  simp only [Function.comp_apply]
  rw [getD_deltaM_row c p i j (List.mem_range.1 hj)]
  by_cases h : i = j
  · simp [h]
  · simp [h, Ne.symm h]

theorem matMul_deltaM (c : ℚ) (p : ℕ) :
    matMul (deltaM c p) (deltaM c p) = deltaM (c * c) p := by
  rw [matMul, transposeM_deltaM]
  simp only [deltaM, List.map_map, Function.comp]
  refine List.map_congr_left (fun i hi => ?_)
  refine List.map_congr_left (fun j _ => ?_)
  simp only [Function.comp_apply]
  rw [dot, zipWith_map_same]
  by_cases hij : i = j
  · subst hij
    rw [List.map_congr_left (fun k _ => show
        (if i = k then c else 0) * (if i = k then c else 0) = if i = k then c * c else 0 by
      by_cases h : i = k <;> simp [h])]
    rw [sum_map_range_ite]
    simp [List.mem_range.1 hi]
  · rw [List.map_congr_left (fun k (_ : k ∈ List.range p) => show
        (if i = k then c else 0) * (if j = k then c else 0) = 0 by
      by_cases h1 : i = k
      · have h2 : j ≠ k := by omega
        simp [h2]
      · simp [h1])]
    simp [hij]

/-- The shrinkage matrix of the ridge branch: `(h·I)ᵗ · (h·I) = h²·I`, so the
code adds `h²` (not `h`) to every diagonal entry of the normal-equation
matrix. -/
theorem shrinkage_eq (h : ℚ) (p : ℕ) :
    matMul (transposeM (smulM h (identityM p))) (smulM h (identityM p))
      = smulM (h * h) (identityM p) := by
  rw [smulM_identityM, transposeM_deltaM, matMul_deltaM, smulM_identityM]

theorem deltaM_zero (p : ℕ) :
    deltaM (0 : ℚ) p = List.replicate p (List.replicate p (0 : ℚ)) := by
  refine List.eq_replicate_iff.2 ⟨by simp [deltaM], fun r hr => ?_⟩
  simp only [deltaM, List.mem_map] at hr
  obtain ⟨i, _, rfl⟩ := hr
  refine List.eq_replicate_iff.2 ⟨by simp, fun e he => ?_⟩
  simp only [List.mem_map] at he
  obtain ⟨j, _, rfl⟩ := he
  exact ite_self 0

/-- Adding an all-zero matrix of matching shape is the identity. -/
theorem addM_zeros (c : ℕ) :
    ∀ N : List (List ℚ), (∀ r ∈ N, r.length = c) →
      addM N (List.replicate N.length (List.replicate c (0 : ℚ))) = N := by
  intro N
  induction N with
  | nil => intro _; rfl
  | cons r t ih =>
    intro h
    have hr : r.length = c := h r (List.mem_cons_self r t)
    have ht := ih (fun s hs => h s (List.mem_cons_of_mem _ hs))
    have hz : List.zipWith (· + ·) r (List.replicate c 0) = r := by
      rw [← hr]; exact zipWith_add_replicate_zero r
    simp only [List.length_cons, List.replicate_succ, addM, List.zipWith_cons_cons]
    rw [hz]
    exact congrArg (r :: ·) ht

theorem length_transposeM (M : List (List ℚ)) : (transposeM M).length = numColsM M := by
  simp [transposeM]

theorem length_matMul (A B : List (List ℚ)) : (matMul A B).length = A.length := by
  simp [matMul]

theorem rows_matMul (A B : List (List ℚ)) :
    ∀ r ∈ matMul A B, r.length = numColsM B := by
  intro r hr
  simp only [matMul, List.mem_map] at hr
  obtain ⟨a, _, rfl⟩ := hr
  simp [length_transposeM]

/-! ### Sorting: a stable sort by distance realizes the (distance, index)
lexicographic order on pairs with strictly increasing indices -/

instance : IsTotal (ℚ × ℕ) KNN.lexLe :=
  ⟨fun a b => by
    simp only [KNN.lexLe]
    rcases lt_trichotomy a.1 b.1 with h | h | h
    · exact Or.inl (Or.inl h)
    · rcases Nat.le_total a.2 b.2 with h2 | h2
      · exact Or.inl (Or.inr ⟨h, h2⟩)
      · exact Or.inr (Or.inr ⟨h.symm, h2⟩)
    · exact Or.inr (Or.inl h)⟩

instance : IsTrans (ℚ × ℕ) KNN.lexLe :=
  ⟨fun a b c hab hbc => by
    simp only [KNN.lexLe] at hab hbc ⊢
    rcases hab with h1 | ⟨e1, l1⟩
    · rcases hbc with h2 | ⟨e2, _⟩
      · exact Or.inl (h1.trans h2)
      · exact Or.inl (e2 ▸ h1)
    · rcases hbc with h2 | ⟨e2, l2⟩
      · exact Or.inl (e1 ▸ h2)
      · exact Or.inr ⟨e1.trans e2, l1.trans l2⟩⟩

instance : IsAntisymm (ℚ × ℕ) KNN.lexLe :=
  ⟨fun a b hab hba => by
    simp only [KNN.lexLe] at hab hba
    rcases hab with h1 | ⟨e1, l1⟩
    · rcases hba with h2 | ⟨e2, _⟩
      · exact absurd h2 (not_lt.2 h1.le)
      · exact absurd e2 (ne_of_gt h1)
    · rcases hba with h2 | ⟨e2, l2⟩
      · exact absurd h2 (not_lt.2 e1.le)
      · exact Prod.ext e1 (le_antisymm l1 l2)⟩

/-- Inserting an element whose index is smaller than every index in a
`lexLe`-sorted list, at the position chosen by the distance-only comparison,
keeps the list `lexLe`-sorted.  This is the stability argument for one
insertion. -/
theorem sorted_lexLe_orderedInsert_distLe (a : ℚ × ℕ) :
    ∀ s : List (ℚ × ℕ), List.Sorted KNN.lexLe s → (∀ b ∈ s, a.2 < b.2) →
      List.Sorted KNN.lexLe (List.orderedInsert KNN.distLe a s) := by
  intro s
  induction s with
  | nil => intro _ _; simp
  | cons b s ih =>
    intro hs hidx
    have hsb := List.sorted_cons.1 hs
    by_cases hab : KNN.distLe a b
    · rw [List.orderedInsert, if_pos hab]
      refine List.sorted_cons.2 ⟨?_, hs⟩
      intro c hc
      have hac1 : a.1 ≤ c.1 := by
        rcases List.mem_cons.1 hc with rfl | hcs
        · exact hab
        · have hbc := hsb.1 c hcs
          have hbc1 : b.1 ≤ c.1 := by
            rcases hbc with h | ⟨e, _⟩
            · exact h.le
            · exact e.le
          exact le_trans hab hbc1
      have hac2 : a.2 < c.2 := hidx c hc
      rcases lt_or_eq_of_le hac1 with h | h
      · exact Or.inl h
      · exact Or.inr ⟨h, hac2.le⟩
    · rw [List.orderedInsert, if_neg hab]
      have hins := ih hsb.2 (fun c hc => hidx c (List.mem_cons_of_mem _ hc))
      refine List.sorted_cons.2 ⟨?_, hins⟩
      intro c hc
      rcases List.mem_cons.1 ((List.perm_orderedInsert KNN.distLe a s).subset hc) with rfl | hcs
      · exact Or.inl (lt_of_not_ge hab)
      · exact hsb.1 c hcs

/-- Stability: insertion sort by the distance-only comparison produces a
`lexLe`-sorted list whenever the input indices are strictly increasing. -/
theorem sorted_lexLe_insertionSort_distLe :
    ∀ l : List (ℚ × ℕ), List.Pairwise (fun a b => a.2 < b.2) l →
      List.Sorted KNN.lexLe (List.insertionSort KNN.distLe l) := by
  intro l
  induction l with
  | nil => intro _; simp
  | cons a t ih =>
    intro hp
    have hp' := List.pairwise_cons.1 hp
    rw [List.insertionSort]
    refine sorted_lexLe_orderedInsert_distLe a _ (ih hp'.2) ?_
    intro b hb
    exact hp'.1 b ((List.perm_insertionSort KNN.distLe t).subset hb)

/-- A stable sort is extensionally unique: on pairs with strictly increasing
indices, sorting by distance only (Python's `sorted(..., key=...)`) equals
sorting by the (distance, index) lexicographic order. -/
theorem insertionSort_distLe_eq_lexLe (l : List (ℚ × ℕ))
    (hp : List.Pairwise (fun a b => a.2 < b.2) l) :
    List.insertionSort KNN.distLe l = List.insertionSort KNN.lexLe l := by
  refine List.eq_of_perm_of_sorted ?_ (sorted_lexLe_insertionSort_distLe l hp)
    (List.sorted_insertionSort KNN.lexLe l)
  exact (List.perm_insertionSort KNN.distLe l).trans
    (List.perm_insertionSort KNN.lexLe l).symm

/-- The indices produced by `enumerate` are strictly increasing. -/
theorem pairwise_fst_lt_enumFrom {β : Type _} :
    ∀ (n : ℕ) (l : List β), List.Pairwise (fun a b => a.1 < b.1) (List.enumFrom n l) := by
  intro n l
  induction l generalizing n with
  | nil => simp
  | cons a t ih =>
    rw [List.enumFrom_cons]
    refine List.pairwise_cons.2 ⟨?_, ih (n + 1)⟩
    rintro ⟨i, x⟩ hb
    have hmem := List.mem_enumFrom hb
    exact lt_of_lt_of_le (Nat.lt_succ_self n) hmem.1

/-- The `(distance, index)` pairs of `classify` carry strictly increasing
indices. -/
theorem pairwise_snd_lt_purePairs {α : Type _} [DecidableEq α] (M : KNN α) (x : List ℚ) :
    List.Pairwise (fun a b => a.2 < b.2) (KNN.purePairs M x) := by
  rw [KNN.purePairs]
  rw [List.pairwise_map]
  exact pairwise_fst_lt_enumFrom 0 M.X

/-! ### The classify pipeline -/

theorem pairsOf_eq {α : Type _} [DecidableEq α] (M : KNN α) (x : List ℚ)
    (hrect : ∀ r ∈ M.X, r.length = M.p) (hx : x.length = M.p) :
    KNN.pairsOf M x = .ok (KNN.purePairs M x) := by
  rw [KNN.pairsOf, KNN.purePairs]
  refine mapExcept_eq_map _ _ _ (fun ir hir => ?_)
  have hr : ir.2 ∈ M.X := by
    have h1 : ir.2 ∈ M.X.enum.map Prod.snd := List.mem_map_of_mem Prod.snd hir
    simp only [List.enum] at h1
    rwa [List.enumFrom_map_snd] at h1
  have hlen : x.length = ir.2.length := by rw [hx, hrect _ hr]
  rw [KNN.distance, if_neg (by simp [hlen]), ok_map]

theorem snd_lt_of_mem_sorted {α : Type _} [DecidableEq α] (M : KNN α) (x : List ℚ)
    (pr : ℚ × ℕ) (h : pr ∈ List.insertionSort KNN.lexLe (KNN.purePairs M x)) :
    pr.2 < M.X.length := by
  have h1 : pr ∈ KNN.purePairs M x := (List.perm_insertionSort KNN.lexLe _).subset h
  simp only [KNN.purePairs, List.mem_map] at h1
  obtain ⟨ir, hir, rfl⟩ := h1
  obtain ⟨i, r⟩ := ir
  have hmem := List.mem_enumFrom hir
  simpa using hmem.2.1

theorem getLabel_eq_getD {α : Type _} [DecidableEq α] [Inhabited α] (y : List α) (i : ℕ)
    (h : i < y.length) : KNN.getLabel y i = .ok (y.getD i default) := by
  rw [KNN.getLabel, List.get?_eq_getElem?, List.getElem?_eq_getElem h,
    List.getD_eq_getElem y default h]

/-- The central pipeline lemma: under the data-shape invariants, `classify`
is the majority vote over the labels of the pairs at positions `[1, k+1)` of
the pair list sorted ascending by distance with ties broken by original
index order. -/
theorem classify_eq_spec {α : Type _} [DecidableEq α] [Inhabited α] (M : KNN α) (x : List ℚ)
    (hn : M.y.length = M.X.length) (hrect : ∀ r ∈ M.X, r.length = M.p)
    (hx : x.length = M.p) :
    KNN.classify M x = KNN.mostCommon (KNN.specSelectedLabels M x) := by
  rw [KNN.classify, if_neg (by simp [hx]), pairsOf_eq M x hrect hx, ok_bind]
  rw [insertionSort_distLe_eq_lexLe _ (pairwise_snd_lt_purePairs M x)]
  have hlab : KNN.mapExcept (fun i => KNN.getLabel M.y i)
      ((((List.insertionSort KNN.lexLe (KNN.purePairs M x)).drop 1).take M.k).map
        (fun pr => pr.2))
      = .ok (((((List.insertionSort KNN.lexLe (KNN.purePairs M x)).drop 1).take M.k).map
        (fun pr => pr.2)).map (fun i => M.y.getD i default)) := by
    refine mapExcept_eq_map _ _ _ (fun i hi => ?_)
    simp only [List.mem_map] at hi
    obtain ⟨pr, hpr, rfl⟩ := hi
    have h1 : pr ∈ List.insertionSort KNN.lexLe (KNN.purePairs M x) :=
      List.mem_of_mem_drop (List.mem_of_mem_take hpr)
    have h2 : pr.2 < M.y.length := by
      rw [hn]; exact snd_lt_of_mem_sorted M x pr h1
    exact getLabel_eq_getD M.y pr.2 h2
  rw [hlab, ok_bind, KNN.specSelectedLabels, KNN.specSortedPairs, List.map_map]
  rfl

theorem length_specSelectedLabels {α : Type _} [DecidableEq α] [Inhabited α]
    (M : KNN α) (x : List ℚ) :
    (KNN.specSelectedLabels M x).length = min M.k (M.X.length - 1) := by
  simp [KNN.specSelectedLabels, KNN.specSortedPairs, KNN.purePairs,
    List.length_insertionSort]

/-- The method `classify` raises no error once there are at least two training points,
`k ≥ 1` and the shapes line up: the selected window is nonempty so the vote
succeeds. -/
theorem classify_ok_of {α : Type _} [DecidableEq α] [Inhabited α] (M : KNN α) (x : List ℚ)
    (hn : M.y.length = M.X.length) (hrect : ∀ r ∈ M.X, r.length = M.p)
    (hx : x.length = M.p) (hn2 : 2 ≤ M.X.length) (hk : 1 ≤ M.k) :
    ∃ c, KNN.classify M x = .ok c := by
  rw [classify_eq_spec M x hn hrect hx]
  refine mostCommon_isOk ?_
  intro hnil
  have hlen := congrArg List.length hnil
  rw [length_specSelectedLabels] at hlen
  simp only [List.length_nil] at hlen
  omega

/-! ### Claim theorems: LinearRegression -/

theorem map_map_except {β γ δ : Type _} (e : Except Err β) (g : β → γ) (f : γ → δ) :
    (e.map g).map f = e.map (f ∘ g) := by cases e <;> rfl

/-- C1 (counterexample): for the model with `X = [[1]]`, `y = [1]` and
`h = 2`, the code's ridge fit yields coefficients `[1/5]` — i.e. it solved
`(XᵗX + 4·I)⁻¹Xᵗy` — while the claimed formula `(XᵗX + h·I)⁻¹Xᵗy` gives
`[1/3]`.  The diagonal shift is not `h`. -/
theorem C1_counterexample :
    LinearRegression.fit { X := [[1]], y := [1], n := 1, p := 1, coefficients := none }
        "ridge" 2
      = .ok { X := [[1]], y := [1], n := 1, p := 1, coefficients := some [1/5] }
    ∧ LinearRegression.ridgeSpecCoefficients
        { X := [[1]], y := [1], n := 1, p := 1, coefficients := none } 2 = .ok [1/3]
    ∧ ([1/5] : List ℚ) ≠ [1/3] := by
  refine ⟨?_, ?_, ?_⟩ <;> with_unfolding_all decide

/-- C1 (amended): a ridge fit with shrinkage strength `h` computes
`(XᵗX + h²·I)⁻¹ Xᵗy`: the penalty the code builds is `(h·I)ᵗ(h·I) = h²·I`,
so `h²` (not `h`) is added to every diagonal entry of the normal-equation
matrix before the solve. -/
theorem C1_amended_ridge_shift (m : LinearRegression) (h : ℚ) :
    matMul (transposeM (smulM h (identityM m.p))) (smulM h (identityM m.p))
      = smulM (h * h) (identityM m.p)
    ∧ m.fit "ridge" h
      = (LinearRegression.ridgeSpecCoefficients m (h * h)).map
          (fun b => { m with coefficients := some b }) := by
  refine ⟨shrinkage_eq h m.p, ?_⟩
  rw [LinearRegression.fit, if_neg (by decide), if_pos rfl, shrinkage_eq h m.p,
    LinearRegression.ridgeSpecCoefficients, map_map_except]
  rfl

/-- With `h = 0` the shrinkage matrix vanishes, so the ridge solve is
literally the ordinary-least-squares solve. -/
theorem fit_ridge_zero_eq_fit_OLS (m : LinearRegression) (hp : m.p = numColsM m.X)
    (h₁ : ℚ) : m.fit "ridge" 0 = m.fit "OLS" h₁ := by
  have hR : m.fit "ridge" 0
      = (matInv (addM (matMul (transposeM m.X) m.X)
          (matMul (transposeM (smulM 0 (identityM m.p))) (smulM 0 (identityM m.p))))).map
        (fun A => { m with coefficients := some (matVec A (matVec (transposeM m.X) m.y)) }) := by
    rw [LinearRegression.fit, if_neg (by decide), if_pos rfl]
  have hO : m.fit "OLS" h₁
      = (matInv (matMul (transposeM m.X) m.X)).map
        (fun A => { m with coefficients := some (matVec A (matVec (transposeM m.X) m.y)) }) := by
    rw [LinearRegression.fit, if_pos rfl]
  have hNlen : (matMul (transposeM m.X) m.X).length = m.p := by
    rw [length_matMul, length_transposeM, hp]
  have hNrows : ∀ r ∈ matMul (transposeM m.X) m.X, r.length = m.p := by
    intro r hr
    rw [hp]
    exact rows_matMul _ _ r hr
  have harg : addM (matMul (transposeM m.X) m.X)
      (matMul (transposeM (smulM 0 (identityM m.p))) (smulM 0 (identityM m.p)))
      = matMul (transposeM m.X) m.X := by
    rw [shrinkage_eq 0 m.p, mul_zero, smulM_identityM, deltaM_zero]
    have hz := addM_zeros m.p (matMul (transposeM m.X) m.X) hNrows
    rw [hNlen] at hz
    exact hz
  rw [hR, hO, harg]

/-- C2: whenever the ordinary-least-squares fit succeeds, the ridge fit with
`ridgeParameter = 0` succeeds and produces the same coefficient vector
(`m.p = numColsM m.X` is the shape invariant `p = len(X[0])` established by
`__init__`). -/
theorem C2_ridge_zero_equals_ols (m : LinearRegression) (hp : m.p = numColsM m.X)
    (h₁ : ℚ) (m' : LinearRegression) (hOLS : m.fit "OLS" h₁ = .ok m') :
    ∃ m₂, m.fit "ridge" 0 = .ok m₂ ∧ m₂.coefficients = m'.coefficients :=
  ⟨m', by rw [fit_ridge_zero_eq_fit_OLS m hp h₁, hOLS], rfl⟩

theorem C2_witness :
    ∃ m₂, LinearRegression.fit
        { X := [[1]], y := [2], n := 1, p := 1, coefficients := none } "ridge" 0 = .ok m₂
      ∧ m₂.coefficients
        = ({ X := [[1]], y := [2], n := 1, p := 1,
             coefficients := some [2] } : LinearRegression).coefficients :=
  C2_ridge_zero_equals_ols _ rfl 1 _ (by with_unfolding_all decide)

/-- C4 (counterexample): `predict` does not fail on a query of the wrong
length: with `p = 2` and the one-element query `[5]`, it silently returns
the truncated dot product `2·5 = 10` instead of raising a dimension error. -/
theorem C4_counterexample :
    (([5] : List ℚ).length
      ≠ ({ X := [[1, 0], [0, 1]], y := [1, 1], n := 2, p := 2,
           coefficients := some [2, 3] } : LinearRegression).p)
    ∧ LinearRegression.predict
        { X := [[1, 0], [0, 1]], y := [1, 1], n := 2, p := 2, coefficients := some [2, 3] }
        [5]
      = .ok 10 := by
  refine ⟨by decide, by with_unfolding_all decide⟩

/-- C4 (amended): on a fitted model, `predict(x)` never checks dimensions:
for *every* query `x` it returns the dot product of `coefficients` and `x`
truncated to the shorter of the two (`zip` semantics); it only fails on an
unfitted model. -/
theorem C4_amended_predict_no_check (m : LinearRegression) (b : List ℚ) (x : List ℚ)
    (hb : m.coefficients = some b) :
    m.predict x = .ok (dot b x) := by
  rw [LinearRegression.predict, hb]

theorem C4_witness :
    LinearRegression.predict
        { X := [[1, 0], [0, 1]], y := [1, 1], n := 2, p := 2, coefficients := some [2, 3] }
        [1, 2]
      = .ok (dot [2, 3] [1, 2]) :=
  C4_amended_predict_no_check _ [2, 3] [1, 2] rfl

/-- C7: an unrecognized method string makes `fit` raise the invalid-method
`ValueError` and leaves the object, in particular `coefficients`,
unchanged. -/
theorem C7_unsupported_method (m : LinearRegression) (method : String) (h : ℚ)
    (h1 : method ≠ "OLS") (h2 : method ≠ "ridge") :
    m.fit method h = .error (.invalidMethod method)
    ∧ m.fitOrUnchanged method h = m := by
  have hf : m.fit method h = .error (.invalidMethod method) := by
    rw [LinearRegression.fit, if_neg h1, if_neg h2]
  exact ⟨hf, by rw [LinearRegression.fitOrUnchanged, hf]⟩

theorem C7_witness :
    LinearRegression.fit { X := [[1]], y := [1], n := 1, p := 1, coefficients := none }
        "lasso" 1
      = .error (.invalidMethod "lasso")
    ∧ LinearRegression.fitOrUnchanged
        { X := [[1]], y := [1], n := 1, p := 1, coefficients := none } "lasso" 1
      = { X := [[1]], y := [1], n := 1, p := 1, coefficients := none } :=
  C7_unsupported_method _ "lasso" 1 (by decide) (by decide)

/-- C8: on *every* fitted model, `MSE = RSS/n ≥ 0` — unconditionally, also
when all targets are identical; and when `TSS ≠ 0` (targets not all
identical), `r_squared = 1 − RSS/TSS ≤ 1`, with equality exactly when every
residual `y − Xb` is zero. -/
theorem C8_metrics_bounds (m : LinearRegression) (b : List ℚ)
    (hb : m.coefficients = some b) :
    m.MSE = .ok (m.RSS b / m.n)
    ∧ 0 ≤ m.RSS b / m.n
    ∧ (m.TSS ≠ 0 →
        m.r_squared = .ok (1 - m.RSS b / m.TSS)
        ∧ 1 - m.RSS b / m.TSS ≤ 1
        ∧ (1 - m.RSS b / m.TSS = 1 ↔ ∀ t ∈ m.residuals b, t = 0)) := by
  have hRSS0 : 0 ≤ m.RSS b := by
    rw [LinearRegression.RSS]
    exact sumSq_nonneg (m.residuals b) (fun t => t)
  have hT0 : 0 ≤ m.TSS := by
    rw [LinearRegression.TSS]
    exact sumSq_nonneg m.y (fun v => v - m.y.sum / m.y.length)
  refine ⟨?_, ?_, fun hT => ⟨?_, ?_, ?_⟩⟩
  · rw [LinearRegression.MSE, hb]
  · exact div_nonneg hRSS0 (Nat.cast_nonneg m.n)
  · rw [LinearRegression.r_squared, hb]
  · have hq0 : 0 ≤ m.RSS b / m.TSS := div_nonneg hRSS0 hT0
    linarith
  · rw [sub_eq_self, div_eq_zero_iff]
    constructor
    · rintro (h | h)
      · rw [LinearRegression.RSS] at h
        exact (sumSq_eq_zero_iff (m.residuals b) (fun t => t)).1 h
      · exact absurd h hT
    · intro H
      refine Or.inl ?_
      rw [LinearRegression.RSS]
      exact (sumSq_eq_zero_iff (m.residuals b) (fun t => t)).2 H

theorem C8_witness :
    LinearRegression.MSE
        { X := [[1], [2]], y := [1, 2], n := 2, p := 1, coefficients := some [1] }
      = .ok (LinearRegression.RSS
          { X := [[1], [2]], y := [1, 2], n := 2, p := 1, coefficients := some [1] } [1]
        / (({ X := [[1], [2]], y := [1, 2], n := 2, p := 1,
              coefficients := some [1] } : LinearRegression).n : ℚ)) :=
  (C8_metrics_bounds _ [1] rfl).1

/-! ### Claim theorems: KNN -/

/-- C3: with `1 ≤ k < n`, rectangular training data and a query of matching
length, `classify` computes the `(distance, index)` pairs, sorts them
ascending by distance with ties broken by original index order, selects the
pairs at sorted positions `[1, k+1)` — exactly `k` of them, discarding the
single closest match — and returns the most common label among the selected
points (stated for a unique maximal count: Python's vote breaks count ties
in unspecified `set` order). -/
theorem C3_classify_pipeline {α : Type _} [DecidableEq α] [Inhabited α] (M : KNN α)
    (x : List ℚ) (m : α)
    (hn : M.y.length = M.X.length) (hrect : ∀ r ∈ M.X, r.length = M.p)
    (hx : x.length = M.p) (hk1 : 1 ≤ M.k) (hkn : M.k < M.X.length)
    (hm : KNN.UniqueMode (KNN.specSelectedLabels M x) m) :
    (KNN.specSelectedLabels M x).length = M.k ∧ KNN.classify M x = .ok m := by
  constructor
  · rw [length_specSelectedLabels]
    omega
  · rw [classify_eq_spec M x hn hrect hx]
    exact mostCommon_of_uniqueMode hm

theorem C3_witness :
    (KNN.specSelectedLabels
        { X := [[0], [1], [2], [10]], y := ([0, 0, 0, 1] : List ℕ), n := 4, p := 1, k := 2 }
        [0]).length = 2
    ∧ KNN.classify
        { X := [[0], [1], [2], [10]], y := ([0, 0, 0, 1] : List ℕ), n := 4, p := 1, k := 2 }
        [0]
      = .ok 0 :=
  C3_classify_pipeline _ [0] 0 rfl (by with_unfolding_all decide) rfl (by decide) (by decide)
    (by with_unfolding_all decide)

/-- C5 (counterexample): constructing a `KNN` with `n = 2` and `k = 0 < 1`
does *not* fail: no validation of `k` is performed. -/
theorem C5_counterexample :
    (KNN.initState (α := ℕ) [[1], [2]] [5, 5] 0).2 = none
    ∧ (KNN.initState (α := ℕ) [[1], [2]] [5, 5] 0).1.k? = some 0 := by
  refine ⟨?_, ?_⟩ <;> with_unfolding_all decide

/-- C5 (amended): `KNN.__init__` performs no validation of `k`: whenever
`y` reshapes to length `n` (and `X` is nonempty so `X.shape[1]` exists),
construction succeeds and stores `k` as given, for every `k` — including
`k < 1` and `k > n`. -/
theorem C5_amended_init_no_validation {α : Type _} (X : List (List ℚ)) (y : List α)
    (k : ℕ) (hlen : y.length = X.length) (hne : X ≠ []) :
    (KNN.initState X y k).2 = none ∧ (KNN.initState X y k).1.k? = some k := by
  rw [KNN.initState, if_neg (fun hc => hc hlen),
    if_neg (by simp [List.isEmpty_iff, hne])]
  exact ⟨rfl, rfl⟩

theorem C5_witness :
    (KNN.initState (α := ℕ) [[1], [2]] [5, 5] 7).2 = none
    ∧ (KNN.initState (α := ℕ) [[1], [2]] [5, 5] 7).1.k? = some 7 :=
  C5_amended_init_no_validation [[1], [2]] [5, 5] 7 rfl (by decide)

/-- C6 (counterexample): constructing a `KNN` with 2 feature rows and 3
labels does fail, but `self.X` has already been assigned when the reshape
of `y` raises — the object *is* partially initialized. -/
theorem C6_counterexample :
    (KNN.initState (α := ℕ) [[1], [2]] [1, 2, 3] 5).1.X? = some [[1], [2]]
    ∧ ((KNN.initState (α := ℕ) [[1], [2]] [1, 2, 3] 5).2).isSome = true := by
  refine ⟨?_, ?_⟩ <;> with_unfolding_all decide

/-- C6 (amended): with mismatched lengths, `LinearRegression.__init__`
checks first and fails with the dimensional `ValueError` reporting both
lengths, with *no* field assigned; `KNN.__init__` fails in
`np.asarray(y).reshape(len(X),)` (the error reports the size and the target
length) — but only *after* `self.X` was assigned, so the `KNN` object is
partially initialized. -/
theorem C6_amended_init_states {α : Type _} (X : List (List ℚ)) (y : List ℚ)
    (X₂ : List (List ℚ)) (y₂ : List α) (k : ℕ)
    (h1 : X.length ≠ y.length) (h2 : y₂.length ≠ X₂.length) :
    LinearRegression.initState X y
      = (({} : LinRegInitState), some (.dimMismatch X.length y.length))
    ∧ KNN.initState X₂ y₂ k
      = (({ X? := some X₂ } : KNNInitState α), some (.reshapeErr y₂.length X₂.length)) := by
  constructor
  · rw [LinearRegression.initState, if_pos h1]
  · rw [KNN.initState, if_pos h2]

theorem C6_witness :
    LinearRegression.initState [[1]] [1, 2]
      = (({} : LinRegInitState), some (.dimMismatch 1 2))
    ∧ KNN.initState (α := ℕ) [[1], [2]] [1, 2, 3] 5
      = (({ X? := some [[1], [2]] } : KNNInitState ℕ), some (.reshapeErr 3 2)) :=
  C6_amended_init_states [[1]] [1, 2] [[1], [2]] [1, 2, 3] 5 (by decide) (by decide)

/-- C10: once `n ≥ 2`, a `k ≥ n` raises no error: the slice `[1 : k+1]`
clamps to the list length, so `classify` votes over exactly the `n − 1`
training points other than the single closest one. -/
theorem C10_large_k_clamps {α : Type _} [DecidableEq α] [Inhabited α] (M : KNN α)
    (x : List ℚ) (hn : M.y.length = M.X.length) (hrect : ∀ r ∈ M.X, r.length = M.p)
    (hx : x.length = M.p) (hn2 : 2 ≤ M.X.length) (hk : M.X.length ≤ M.k) :
    (∃ l, KNN.classify M x = .ok l)
    ∧ KNN.classify M x = KNN.mostCommon (KNN.specDroppedLabels M x)
    ∧ (KNN.specDroppedLabels M x).length = M.X.length - 1 := by
  have hslen : (KNN.specSortedPairs M x).length = M.X.length := by
    simp [KNN.specSortedPairs, KNN.purePairs, List.length_insertionSort]
  have hdrop : KNN.specSelectedLabels M x = KNN.specDroppedLabels M x := by
    rw [KNN.specSelectedLabels, KNN.specDroppedLabels]
    congr 1
    refine List.take_of_length_le ?_
    rw [List.length_drop, hslen]
    omega
  refine ⟨?_, ?_, ?_⟩
  · exact classify_ok_of M x hn hrect hx hn2 (le_trans (by omega) hk)
  · rw [classify_eq_spec M x hn hrect hx, hdrop]
  · rw [KNN.specDroppedLabels, List.length_map, List.length_drop, hslen]

theorem C10_witness :
    (∃ l, KNN.classify
        { X := [[0], [3]], y := ([7, 9] : List ℕ), n := 2, p := 1, k := 5 } [0] = .ok l)
    ∧ KNN.classify { X := [[0], [3]], y := ([7, 9] : List ℕ), n := 2, p := 1, k := 5 } [0]
      = KNN.mostCommon (KNN.specDroppedLabels
          { X := [[0], [3]], y := ([7, 9] : List ℕ), n := 2, p := 1, k := 5 } [0])
    ∧ (KNN.specDroppedLabels
        { X := [[0], [3]], y := ([7, 9] : List ℕ), n := 2, p := 1, k := 5 } [0]).length = 1 :=
  C10_large_k_clamps _ [0] rfl (by with_unfolding_all decide) rfl (by decide) (by decide)

/-- C9 (counterexample): `test_error` performs no length validation: with 1
feature row and 2 labels (differing lengths) it silently returns `0`
instead of raising a dimension error. -/
theorem C9_counterexample :
    (([[0]] : List (List ℚ)).length ≠ ([0, 1] : List ℕ).length)
    ∧ KNN.test_error { X := [[0], [1]], y := ([0, 0] : List ℕ), n := 2, p := 1, k := 1 }
        [[0]] [0, 1]
      = .ok 0 := by
  refine ⟨by decide, by with_unfolding_all decide⟩

/-- C9 (amended): `test_error` validates nothing: it iterates over the rows
of `features`, indexing `labels` (so surplus labels are silently ignored,
and too-few labels raise an `IndexError` mid-loop, not a dimension error at
entry).  For equal nonzero lengths and well-shaped data it returns the
fraction of rows whose classification differs from the corresponding label:
`0` when every prediction matches and `1` when every prediction is wrong. -/
theorem C9_amended_test_error {α : Type _} [DecidableEq α] [Inhabited α] (M : KNN α)
    (Xt : List (List ℚ)) (yt : List α)
    (hn : M.y.length = M.X.length) (hrect : ∀ r ∈ M.X, r.length = M.p)
    (hn2 : 2 ≤ M.X.length) (hk : 1 ≤ M.k)
    (hlen : Xt.length = yt.length) (hne : Xt ≠ [])
    (hrectT : ∀ r ∈ Xt, r.length = M.p) :
    KNN.test_error M Xt yt = .ok ((KNN.misCount M Xt yt : ℚ) / (Xt.length : ℚ))
    ∧ ((∀ ir ∈ Xt.enum, KNN.classify M ir.2 = KNN.getLabel yt ir.1) →
        KNN.test_error M Xt yt = .ok 0)
    ∧ ((∀ ir ∈ Xt.enum, KNN.classify M ir.2 ≠ KNN.getLabel yt ir.1) →
        KNN.test_error M Xt yt = .ok 1) := by
  have hlen0 : Xt.length ≠ 0 := fun h0 => hne (List.length_eq_zero.1 h0)
  have hmain : KNN.test_error M Xt yt
      = .ok ((KNN.misCount M Xt yt : ℚ) / (Xt.length : ℚ)) := by
    rw [KNN.test_error]
    have hflags : KNN.mapExcept (fun ir => (KNN.classify M ir.2).bind (fun c =>
        (KNN.getLabel yt ir.1).bind (fun lbl => .ok (if c = lbl then (0 : ℕ) else 1))))
        Xt.enum
        = .ok (Xt.enum.map (fun ir =>
            if KNN.classify M ir.2 = KNN.getLabel yt ir.1 then (0 : ℕ) else 1)) := by
      refine mapExcept_eq_map _ _ _ ?_
      rintro ⟨i, r⟩ hir
      have hmemX : r ∈ Xt := by
        have h1 : r ∈ Xt.enum.map Prod.snd := List.mem_map_of_mem Prod.snd hir
        simp only [List.enum] at h1
        rwa [List.enumFrom_map_snd] at h1
      have hb := List.mem_enumFrom hir
      have hidx : i < yt.length := by
        rw [← hlen]
        simpa using hb.2.1
      obtain ⟨c, hc⟩ := classify_ok_of M r hn hrect (hrectT r hmemX) hn2 hk
      have hlbl := getLabel_eq_getD yt i hidx
      simp only []
      rw [hc, hlbl]
      simp [ok_bind]
    rw [hflags, ok_bind, if_neg hlen0]
    have hsum : (Xt.enum.map (fun ir =>
        if KNN.classify M ir.2 = KNN.getLabel yt ir.1 then (0 : ℕ) else 1)).sum
        = KNN.misCount M Xt yt := by
      rw [sum_flags_eq_countP (fun ir => KNN.classify M ir.2 = KNN.getLabel yt ir.1) Xt.enum,
        KNN.misCount]
    rw [hsum]
  refine ⟨hmain, fun hall => ?_, fun hall => ?_⟩
  · rw [hmain]
    have h0 : KNN.misCount M Xt yt = 0 := by
      rw [KNN.misCount]
      refine List.countP_eq_zero.2 (fun ir hir => ?_)
      simp [hall ir hir]
    rw [h0]
    simp
  · rw [hmain]
    have h1 : KNN.misCount M Xt yt = Xt.length := by
      rw [KNN.misCount]
      have hcp : Xt.enum.countP
          (fun ir => decide (KNN.classify M ir.2 ≠ KNN.getLabel yt ir.1))
          = Xt.enum.length :=
        List.countP_eq_length.2 (fun ir hir => by simpa using hall ir hir)
      rw [hcp, List.enum_length]
    rw [h1, div_self (Nat.cast_ne_zero.2 hlen0)]

theorem C9_witness :
    KNN.test_error { X := [[0], [1]], y := ([0, 0] : List ℕ), n := 2, p := 1, k := 1 }
        [[0]] [0]
      = .ok ((KNN.misCount
            { X := [[0], [1]], y := ([0, 0] : List ℕ), n := 2, p := 1, k := 1 }
            [[0]] [0] : ℚ)
          / (([[0]] : List (List ℚ)).length : ℚ)) :=
  (C9_amended_test_error
    { X := [[0], [1]], y := ([0, 0] : List ℕ), n := 2, p := 1, k := 1 } [[0]] [0]
    rfl (by with_unfolding_all decide) (by decide)
    (by decide) rfl (by decide) (by with_unfolding_all decide)).1

end ModelsFromScratch
